import Mathlib

/-!
Verification of the SimGrid model-checker snapshot substrate, as described in
`doc/doxygen/uhood.doc` and the accompanying specification.  The repository
snapshot contains the documentation (`uhood.doc`) and a public header; the
C++ implementation of the snapshot manager, the address-space abstraction,
the DWARF machinery and the kernel futures is not part of the sources, so
those components are modelled from the specification's words.  The reference
counting of `simgrid::simix::Process` is embedded from the code excerpt shown
in `uhood.doc` (section "S4U").
-/

namespace SimGridMC

/-- Modelled from the spec: the typed error kinds of section 7 of the spec
(the implementation of the error-reporting core is not under `src/`).
`ProcessGone` carries whether the checked process crashed (as opposed to a
clean exit); `EvaluationError` stands for a malformed location program
(e.g. stack underflow), distinct from `UnsupportedOperation`. -/
inductive MCError where
  | NotMapped
  | ProcessGone (crashed : Bool)
  | MalformedImage
  | UnsupportedDebugFormat
  | UnsupportedOperation
  | EvaluationError
  | LayoutMismatch
  deriving DecidableEq, Repr

/-- A region descriptor: start address and byte length of one captured
memory region (a writable segment or a tracked heap range). -/
structure RegionDescriptor where
  start : Nat
  size : Nat
  deriving DecidableEq, Repr

/-- A memory region: its descriptor together with the bytes it holds. -/
structure Region where
  descr : RegionDescriptor
  bytes : List Nat
  deriving DecidableEq, Repr

/-- A live allocation recorded in the heap-tracking table: start address,
byte size and a monotonically increasing generation id. -/
structure HeapBlock where
  start : Nat
  size : Nat
  generation : Nat
  deriving DecidableEq, Repr

/-- Modelled from the spec: the Live Process backend's state, namely the set
of known-valid memory regions (writable segments plus tracked heap ranges)
and the heap-tracking table (the Live Process backend implementation is not
under `src/`). -/
structure Process where
  regions : List Region
  heapTable : List HeapBlock
  deriving DecidableEq, Repr

/-- The loaded-image layout of a process: its region descriptors
(base addresses and sizes), without the bytes. -/
def Process.layout (p : Process) : List RegionDescriptor :=
  p.regions.map Region.descr

/-- Whether the address range `[addr, addr+len)` lies inside the region
described by `d`. -/
def RegionDescriptor.covers (d : RegionDescriptor) (addr len : Nat) : Prop :=
  d.start ≤ addr ∧ addr + len ≤ d.start + d.size

instance (d : RegionDescriptor) (addr len : Nat) :
    Decidable (d.covers addr len) := by
  unfold RegionDescriptor.covers; infer_instance

/-- Modelled from the spec: `readBytes(address, length)` over a list of
known-valid regions, the common implementation of the AddressSpace contract
(the AddressSpace implementation is not under `src/`).  The first region
covering the whole range serves the read; an address range outside every
known-valid region yields the distinguished `NotMapped` error. -/
def readBytesRegions (rs : List Region) (addr len : Nat) :
    Except MCError (List Nat) :=
  match rs with
  | [] => .error .NotMapped
  | r :: rest =>
    if r.descr.covers addr len then
      .ok ((r.bytes.drop (addr - r.descr.start)).take len)
    else
      readBytesRegions rest addr len

/-- `readBytes` of the Live variant of the AddressSpace. -/
def Process.readBytes (p : Process) (addr len : Nat) :
    Except MCError (List Nat) :=
  readBytesRegions p.regions addr len

/-- Modelled from the spec: an immutable Snapshot, i.e. the captured
(region descriptor, byte copy) pairs, the heap-tracking table at capture
time, and a fingerprint over the captured bytes (the Snapshot implementation
is not under `src/`). -/
structure Snapshot where
  regions : List Region
  heapTable : List HeapBlock
  fingerprint : Nat
  deriving DecidableEq, Repr

/-- `readBytes` of the Frozen variant of the AddressSpace: same contract,
served from the captured image. -/
def Snapshot.readBytes (s : Snapshot) (addr len : Nat) :
    Except MCError (List Nat) :=
  readBytesRegions s.regions addr len

/-- One step of the FNV-1a digest over a byte, on 32-bit words. -/
def fnv1aStep (h b : Nat) : Nat :=
  ((h ^^^ b % 256) * 16777619) % 2 ^ 32

/-- Digest of a byte sequence (FNV-1a). -/
def digestBytes (bytes : List Nat) : Nat :=
  bytes.foldl fnv1aStep 2166136261

/-- All captured bytes of a region list, in order. -/
def regionsBytes (rs : List Region) : List Nat :=
  (rs.map Region.bytes).flatten

/-- Modelled from the spec: the fingerprint is a compact digest computed
over the captured bytes (the fingerprinting implementation is not under
`src/`). -/
def fingerprintOf (rs : List Region) : Nat :=
  digestBytes (regionsBytes rs)

/-- Modelled from the spec: `capture(process)` copies the regions to
capture and the heap-tracking table, and computes the fingerprint over the
captured bytes (the Snapshot manager implementation is not under `src/`). -/
def capture (p : Process) : Snapshot :=
  { regions := p.regions
    heapTable := p.heapTable
    fingerprint := fingerprintOf p.regions }

/-- Modelled from the spec: `restore(process, snapshot)` checks that the
process's loaded-image layout matches the layout recorded at capture time;
on a match it writes the captured bytes back and resets the heap-tracking
table, on a mismatch it fails with `LayoutMismatch` and leaves the process
untouched (the Snapshot manager implementation is not under `src/`).  The
returned pair is the process state after the call together with the call's
outcome. -/
def restore (p : Process) (s : Snapshot) :
    Process × Except MCError Unit :=
  if p.layout = s.regions.map Region.descr then
    ({ regions := s.regions, heapTable := s.heapTable }, .ok ())
  else
    (p, .error .LayoutMismatch)

/-- Outcome of comparing two snapshots: equal, or different with the set of
byte positions (within the concatenated captured bytes) that differ. -/
inductive CompareOutcome where
  | Equal
  | Different (diff : List Nat)
  deriving DecidableEq, Repr

/-- Byte positions at which the captured bytes of two snapshots differ
(positions past the shorter image count as differing). -/
def byteDiffSet (a b : Snapshot) : List Nat :=
  (List.range (max (regionsBytes a.regions).length
      (regionsBytes b.regions).length)).filter
    (fun i => (regionsBytes a.regions).getD i 256 ≠
      (regionsBytes b.regions).getD i 256)

/-- Modelled from the spec: `compare(a, b)` performs the fingerprint
comparison first; equal fingerprints are treated as equal without byte
comparison, otherwise the byte-diff set is produced (the Snapshot manager
implementation is not under `src/`). -/
def compareSnapshot (a b : Snapshot) : CompareOutcome :=
  if a.fingerprint = b.fingerprint then .Equal
  else .Different (byteDiffSet a b)

/-- Remote type metadata: the byte size recorded for the type in the
checked process's debug information (the *remote* size). -/
structure RemoteType where
  byteSize : Nat
  deriving DecidableEq, Repr

/-- Modelled from the spec: `RemotePtr<T>` — the raw address of an object
of type `T` in some remote AddressSpace, carrying the remote type's
metadata; it is never dereferenced with local memory operations (the
`RemotePtr` implementation is not under `src/`). -/
structure RemotePtr where
  raw : Int
  type : RemoteType
  deriving DecidableEq, Repr

/-- Modelled from the spec: RemotePtr arithmetic — `addr + k` advances the
raw address by `k` times the remote type's recorded byte size. -/
def RemotePtr.add (p : RemotePtr) (k : Int) : RemotePtr :=
  { p with raw := p.raw + k * (p.type.byteSize : Int) }

/-- Element indexing on a RemotePtr: the address of element `i`. -/
def RemotePtr.index (p : RemotePtr) (i : Int) : Int :=
  (p.add i).raw

/-- Kind of a debug-format type entry. -/
inductive TypeKind where
  | base
  | pointer
  | struct
  | union
  | enum
  | array
  | qualifier
  deriving DecidableEq, Repr

/-- Modelled from the spec: a raw debug-format type entry of one object
image: its raw offset, kind, byte size, and structural edges to other
entries given as raw debug-format offsets (pointee type, member types,
element type) — a self-referential aggregate has an edge equal to its own
offset (the Debug-Info Reader implementation is not under `src/`). -/
structure RawTypeEntry where
  offset : Nat
  kind : TypeKind
  byteSize : Nat
  edges : List Nat
  deriving DecidableEq, Repr

/-- A parsed Type node.  Structural edges refer to other nodes by raw
offset, so a recursive reference resolves through the per-object table to
the shared node at that offset. -/
structure TypeNode where
  offset : Nat
  kind : TypeKind
  byteSize : Nat
  edges : List Nat
  deriving DecidableEq, Repr

/-- An object image handed to the Debug-Info Reader: its raw debug-format
type entries, in file order. -/
structure ObjectImage where
  entries : List RawTypeEntry
  deriving DecidableEq, Repr

/-- Per-object parsed debug information: the Type nodes indexed by raw
debug-format offset. -/
structure ObjectInfo where
  typesByOffset : List (Nat × TypeNode)
  deriving DecidableEq, Repr

/-- Translating one raw entry to its Type node. -/
def parseEntry (e : RawTypeEntry) : TypeNode :=
  { offset := e.offset, kind := e.kind, byteSize := e.byteSize
    edges := e.edges }

/-- Modelled from the spec: inserting a parsed entry into the per-object
table deduplicates by raw offset — an offset already present keeps its
existing node (the Debug-Info Reader implementation is not under
`src/`). -/
def insertType (tbl : List (Nat × TypeNode)) (e : RawTypeEntry) :
    List (Nat × TypeNode) :=
  if tbl.any (fun kv => kv.1 = e.offset) then tbl
  else tbl ++ [(e.offset, parseEntry e)]

/-- Modelled from the spec: parsing one object image builds its type table
by processing every raw entry once, deduplicating by offset.  The function
is structurally recursive on the entry list, so parsing always
terminates. -/
def parseObject (img : ObjectImage) : ObjectInfo :=
  { typesByOffset := img.entries.foldl insertType [] }

/-- Offset lookup in a parsed object's type table. -/
def ObjectInfo.typeAt (info : ObjectInfo) (off : Nat) : Option TypeNode :=
  (info.typesByOffset.find? (fun kv => kv.1 = off)).map Prod.snd

/-- Modelled from the spec: loading several objects parses each object's
entries into its own table — no deduplication across objects. -/
def loadObjects (imgs : List ObjectImage) : List ObjectInfo :=
  imgs.map parseObject

/-- Modelled from the spec: the location-expression instruction set — push
constant, read register, frame-base offset, add offset, arithmetic,
dereference through an AddressSpace — plus a constructor for any operation
this implementation has not modeled (the Location Expression Evaluator
implementation is not under `src/`). -/
inductive DwarfOp where
  | lit (n : Nat)
  | reg (i : Nat)
  | fbreg (off : Nat)
  | plusUconst (n : Nat)
  | plus
  | minus
  | mul
  | deref
  | unknownOp (code : Nat)
  deriving DecidableEq, Repr

/-- The runtime context supplied to the evaluator: the target's pointer
width in bits, the current frame base, the register snapshot, and the
target AddressSpace's regions. -/
structure EvalContext where
  width : Nat
  frameBase : Nat
  registers : Nat → Nat

/-- Reduction of a value to an unsigned machine word of width `w` bits. -/
def wordOf (w n : Nat) : Nat :=
  n % 2 ^ w

/-- Little-endian decoding of a byte sequence into a value. -/
def decodeWord (bs : List Nat) : Nat :=
  bs.foldr (fun b acc => b % 256 + 256 * acc) 0

/-- Modelled from the spec: one step of the stack machine.  Every
operation's result is reduced modulo `2 ^ width` (wraparound); an
operation that is not modeled fails with `UnsupportedOperation`; a
malformed program (stack underflow) fails with `EvaluationError` (the
Location Expression Evaluator implementation is not under `src/`). -/
def evalOp (ctx : EvalContext) (space : List Region) (stack : List Nat) :
    DwarfOp → Except MCError (List Nat)
  | .lit n => .ok (wordOf ctx.width n :: stack)
  | .reg i => .ok (wordOf ctx.width (ctx.registers i) :: stack)
  | .fbreg off => .ok (wordOf ctx.width (ctx.frameBase + off) :: stack)
  | .plusUconst n =>
    match stack with
    | a :: rest => .ok (wordOf ctx.width (a + n) :: rest)
    | [] => .error .EvaluationError
  | .plus =>
    match stack with
    | a :: b :: rest => .ok (wordOf ctx.width (b + a) :: rest)
    | _ => .error .EvaluationError
  | .minus =>
    match stack with
    | a :: b :: rest =>
      .ok (wordOf ctx.width (b + (2 ^ ctx.width - a % 2 ^ ctx.width)) :: rest)
    | _ => .error .EvaluationError
  | .mul =>
    match stack with
    | a :: b :: rest => .ok (wordOf ctx.width (b * a) :: rest)
    | _ => .error .EvaluationError
  | .deref =>
    match stack with
    | a :: rest =>
      match readBytesRegions space a (ctx.width / 8) with
      | .ok bs => .ok (wordOf ctx.width (decodeWord bs) :: rest)
      | .error e => .error e
    | [] => .error .EvaluationError
  | .unknownOp _ => .error .UnsupportedOperation

/-- Running a whole location program on a starting stack. -/
def evalProgram (ctx : EvalContext) (space : List Region) (stack : List Nat) :
    List DwarfOp → Except MCError (List Nat)
  | [] => .ok stack
  | op :: rest =>
    match evalOp ctx space stack op with
    | .ok stack2 => evalProgram ctx space stack2 rest
    | .error e => .error e

/-- Modelled from the spec: `evaluate(expression, context)` runs the
location program on an empty stack and yields the top of the resulting
stack (the Location Expression Evaluator implementation is not under
`src/`). -/
def evaluate (ctx : EvalContext) (space : List Region)
    (prog : List DwarfOp) : Except MCError Nat :=
  match evalProgram ctx space [] prog with
  | .ok (a :: _) => .ok a
  | .ok [] => .error .EvaluationError
  | .error e => .error e

/-- Modelled from the spec: resolving the variables of a frame evaluates
each variable's location expression independently; a failure aborts only
that one variable's resolution. -/
def resolveVariables (ctx : EvalContext) (space : List Region)
    (vars : List (List DwarfOp)) : List (Except MCError Nat) :=
  vars.map (evaluate ctx space)

/-- Modelled from the spec: the error reported when the single-threaded
simulation control loop would block (the kernel Future implementation is
not under `src/`). -/
inductive KernelError where
  | DeadlockDetected
  deriving DecidableEq, Repr

/-- Modelled from the spec: a `simgrid::kernel::Future` as a one-shot
result channel plus a continuation list; continuations are identified by
numeric ids, `ran` lists the ids already executed, in order (the kernel
Future implementation is not under `src/`). -/
structure FutureState where
  value : Option Nat
  pending : List Nat
  ran : List Nat
  deriving DecidableEq, Repr

/-- A fresh future: unset, no continuations. -/
def FutureState.initial : FutureState :=
  { value := none, pending := [], ran := [] }

/-- Whether the future's result is set. -/
def FutureState.isReady (f : FutureState) : Bool :=
  f.value.isSome

/-- Modelled from the spec: attaching a continuation — queued while the
result is unset, run immediately when attached after the result is set. -/
def FutureState.thenCont (f : FutureState) (k : Nat) : FutureState :=
  match f.value with
  | some _ => { f with ran := f.ran ++ [k] }
  | none => { f with pending := f.pending ++ [k] }

/-- Modelled from the spec: setting the one-shot result runs the queued
continuations synchronously on the setter's thread of control. -/
def FutureState.setValue (f : FutureState) (v : Nat) : FutureState :=
  { value := some v, pending := [], ran := f.ran ++ f.pending }

/-- Modelled from the spec: a blocking `get` inside the single-threaded
control loop — on a ready future it yields the value; on an unset future
the simulator detects the deadlock and aborts after reporting an error. -/
def FutureState.get (f : FutureState) : Except KernelError Nat :=
  match f.value with
  | some v => .ok v
  | none => .error .DeadlockDetected

/-- `xbt_assert` violation: the abort raised by a failed assertion. -/
inductive AssertViolation where
  | assertFailed
  deriving DecidableEq, Repr

/-- The refcount state of one `simgrid::simix::Process`, from the code
excerpt in `doc/doxygen/uhood.doc`: `refcount_` starts at 1; `deleted`
records that `delete process` has run. -/
structure ProcessObj where
  refcount : Nat
  deleted : Bool
  deriving DecidableEq, Repr

/-- `Process() : refcount_ { 1 }` — a fresh Process has refcount 1. -/
def ProcessObj.new : ProcessObj :=
  { refcount := 1, deleted := false }

/-- `intrusive_ptr_add_ref(Process*)` from `uhood.doc`: fetch-and-add of
the refcount, with `xbt_assert(previous != 0)`. -/
def intrusive_ptr_add_ref (p : ProcessObj) :
    Except AssertViolation ProcessObj :=
  if p.refcount = 0 then .error .assertFailed
  else .ok { p with refcount := p.refcount + 1 }

/-- `intrusive_ptr_release(Process*)` from `uhood.doc`: decrement the
refcount and `delete process` exactly when the count reaches zero. -/
def intrusive_ptr_release (p : ProcessObj) : ProcessObj :=
  { refcount := p.refcount - 1
    deleted := p.deleted || decide (p.refcount - 1 = 0) }

/-- A store of Process objects addressed by numeric ids; a
`smx_process_t` pointer is an `Option Nat`, `none` being the null
pointer. -/
def ProcStore : Type :=
  Nat → ProcessObj

/-- `SIMIX_process_ref` from `uhood.doc`: calls `intrusive_ptr_add_ref` on
a non-null pointer and returns the pointer unchanged; a no-op on null. -/
def SIMIX_process_ref (p : Option Nat) (store : ProcStore) :
    Except AssertViolation (ProcStore × Option Nat) :=
  match p with
  | none => .ok (store, none)
  | some a =>
    match intrusive_ptr_add_ref (store a) with
    | .ok obj => .ok (fun x => if x = a then obj else store x, some a)
    | .error e => .error e

/-- `SIMIX_process_unref` from `uhood.doc`: calls `intrusive_ptr_release`
on a non-null pointer; a no-op on null. -/
def SIMIX_process_unref (p : Option Nat) (store : ProcStore) : ProcStore :=
  match p with
  | none => store
  | some a => fun x => if x = a then intrusive_ptr_release (store a) else store x

/-- A refcount operation on one Process object. -/
inductive RefOp where
  | addRef
  | release
  deriving DecidableEq, Repr

/-- Running a sequence of refcount operations on one object; a failed
assertion aborts the run. -/
def runRefOps (p : ProcessObj) : List RefOp → Except AssertViolation ProcessObj
  | [] => .ok p
  | RefOp.addRef :: rest =>
    match intrusive_ptr_add_ref p with
    | .ok q => runRefOps q rest
    | .error e => .error e
  | RefOp.release :: rest => runRefOps (intrusive_ptr_release p) rest

/-- A read over a region list outside every known-valid region yields the
distinguished `NotMapped` error. -/
theorem readBytesRegions_notMapped (rs : List Region) (addr len : Nat)
    (h : ∀ r ∈ rs, ¬ r.descr.covers addr len) :
    readBytesRegions rs addr len = .error .NotMapped := by
  induction rs with
  | nil => rfl
  | cons r rest ih =>
    have hr : ¬ r.descr.covers addr len := h r (List.mem_cons_self r rest)
    simp only [readBytesRegions, if_neg hr]
    exact ih fun r' hr' => h r' (List.mem_cons_of_mem r hr')

/-- A read over a region list returns bytes or the typed `NotMapped`
error: no other outcome exists. -/
theorem readBytesRegions_total (rs : List Region) (addr len : Nat) :
    (∃ bs, readBytesRegions rs addr len = .ok bs) ∨
      readBytesRegions rs addr len = .error .NotMapped := by
  induction rs with
  | nil => exact Or.inr rfl
  | cons r rest ih =>
    by_cases hc : r.descr.covers addr len
    · exact Or.inl ⟨(r.bytes.drop (addr - r.descr.start)).take len,
        by simp only [readBytesRegions, if_pos hc]⟩
    · simpa only [readBytesRegions, if_neg hc] using ih

/-- C1: performing `capture` on a Live Process and then `restore` of that
Snapshot onto the same Process succeeds, leaves every previously-valid
address readable with exactly the bytes it held before the capture, and
resets the heap-tracking table to its contents at capture time. -/
theorem capture_restore_roundtrip (p : Process) :
    (restore p (capture p)).2 = .ok () ∧
      (∀ addr len,
        (restore p (capture p)).1.readBytes addr len = p.readBytes addr len) ∧
      (restore p (capture p)).1.heapTable = (capture p).heapTable := by
  simp [restore, capture, Process.layout, Process.readBytes]

/-- C2: on both AddressSpace variants, a read of a range lying outside
every known-valid region fails with the distinguished `NotMapped` error
rather than crashing or returning bytes, and no failed read or write is
silently swallowed: a read returns bytes or a typed error, and a restore
returns success or a typed error. -/
theorem readBytes_outside_notMapped (p : Process) (s : Snapshot)
    (addr len : Nat)
    (hp : ∀ r ∈ p.regions, ¬ r.descr.covers addr len)
    (hs : ∀ r ∈ s.regions, ¬ r.descr.covers addr len) :
    p.readBytes addr len = .error .NotMapped ∧
      s.readBytes addr len = .error .NotMapped ∧
      (∀ (rs : List Region) (a l : Nat),
        (∃ bs, readBytesRegions rs a l = .ok bs) ∨
          readBytesRegions rs a l = .error .NotMapped) ∧
      (∀ (q : Process) (t : Snapshot),
        (restore q t).2 = .ok () ∨ (restore q t).2 = .error .LayoutMismatch) := by
  refine ⟨readBytesRegions_notMapped p.regions addr len hp,
    readBytesRegions_notMapped s.regions addr len hs,
    fun rs a l => readBytesRegions_total rs a l,
    fun q t => ?_⟩
  by_cases hl : q.layout = t.regions.map Region.descr
  · exact Or.inl (by simp [restore, hl])
  · exact Or.inr (by simp [restore, hl])

/-- C2 witness: a concrete out-of-range read on both variants. -/
theorem readBytes_outside_notMapped_witness :
    (Process.mk [⟨⟨0, 4⟩, [1, 2, 3, 4]⟩] []).readBytes 100 1 =
        .error .NotMapped ∧
      (Snapshot.mk [⟨⟨0, 4⟩, [1, 2, 3, 4]⟩] [] 0).readBytes 100 1 =
        .error .NotMapped := by
  have h := readBytes_outside_notMapped
    (Process.mk [⟨⟨0, 4⟩, [1, 2, 3, 4]⟩] [])
    (Snapshot.mk [⟨⟨0, 4⟩, [1, 2, 3, 4]⟩] [] 0) 100 1
    (by decide) (by decide)
  exact ⟨h.1, h.2.1⟩

/-- C3: a restore against a process whose loaded-image layout differs from
the layout recorded at capture time fails with `LayoutMismatch` and writes
nothing: the process's memory reads and heap-tracking table are exactly as
before the failed call, and the failure is an error value returned to the
caller of that restore call. -/
theorem restore_layout_mismatch (p : Process) (s : Snapshot)
    (h : p.layout ≠ s.regions.map Region.descr) :
    restore p s = (p, .error .LayoutMismatch) ∧
      (∀ addr len, (restore p s).1.readBytes addr len = p.readBytes addr len) ∧
      (restore p s).1.heapTable = p.heapTable := by
  refine ⟨by simp [restore, h], fun addr len => ?_, ?_⟩ <;> simp [restore, h]

/-- C3 witness: a concrete restore with a mismatched layout. -/
theorem restore_layout_mismatch_witness :
    restore (Process.mk [⟨⟨0, 2⟩, [7, 7]⟩] [])
        (Snapshot.mk [⟨⟨8, 2⟩, [7, 7]⟩] [] 0) =
      (Process.mk [⟨⟨0, 2⟩, [7, 7]⟩] [], .error .LayoutMismatch) :=
  (restore_layout_mismatch (Process.mk [⟨⟨0, 2⟩, [7, 7]⟩] [])
    (Snapshot.mk [⟨⟨8, 2⟩, [7, 7]⟩] [] 0) (by decide)).1

/-- C4: the fingerprint is a deterministic function of the captured bytes:
two captures whose memory regions are byte-identical produce equal
fingerprints, and `compare` on the two snapshots reports `Equal` from the
fingerprint comparison alone, without byte comparison. -/
theorem fingerprint_deterministic (p q : Process)
    (h : p.regions.map Region.bytes = q.regions.map Region.bytes) :
    (capture p).fingerprint = (capture q).fingerprint ∧
      compareSnapshot (capture p) (capture q) = .Equal := by
  have hb : regionsBytes p.regions = regionsBytes q.regions := by
    unfold regionsBytes; rw [h]
  have hf : fingerprintOf p.regions = fingerprintOf q.regions := by
    unfold fingerprintOf; rw [hb]
  exact ⟨by simp [capture, hf], by simp [compareSnapshot, capture, hf]⟩

/-- C4 witness: two captures of byte-identical regions at different base
addresses compare `Equal`. -/
theorem fingerprint_deterministic_witness :
    compareSnapshot
        (capture (Process.mk [⟨⟨0, 3⟩, [9, 8, 7]⟩] []))
        (capture (Process.mk [⟨⟨64, 3⟩, [9, 8, 7]⟩] [⟨5, 1, 1⟩])) = .Equal :=
  (fingerprint_deterministic (Process.mk [⟨⟨0, 3⟩, [9, 8, 7]⟩] [])
    (Process.mk [⟨⟨64, 3⟩, [9, 8, 7]⟩] [⟨5, 1, 1⟩]) (by decide)).2

/-- Inserting an entry leaves the keys unchanged when its offset is
already present, and appends the offset otherwise. -/
theorem insertType_mem_key (tbl : List (Nat × TypeNode)) (e : RawTypeEntry)
    (off : Nat) :
    (off ∈ (insertType tbl e).map Prod.fst ↔
      off ∈ tbl.map Prod.fst ∨ off = e.offset) := by
  unfold insertType
  split
  · rename_i ha
    have hin : e.offset ∈ tbl.map Prod.fst := by
      rcases List.any_eq_true.mp ha with ⟨kv, hkv, hp⟩
      exact List.mem_map.mpr ⟨kv, hkv, of_decide_eq_true hp⟩
    constructor
    · exact Or.inl
    · rintro (h | h)
      · exact h
      · exact h ▸ hin
  · simp [List.map_append]

/-- Inserting an entry preserves key uniqueness. -/
theorem insertType_nodup (tbl : List (Nat × TypeNode)) (e : RawTypeEntry)
    (h : (tbl.map Prod.fst).Nodup) :
    ((insertType tbl e).map Prod.fst).Nodup := by
  unfold insertType
  split
  · exact h
  · rename_i ha
    have hne : e.offset ∉ tbl.map Prod.fst := by
      intro hin
      rcases List.mem_map.mp hin with ⟨kv, hkv, hp⟩
      exact absurd (List.any_eq_true.mpr ⟨kv, hkv, decide_eq_true hp⟩) ha
    simp [List.map_append, List.nodup_append, h, List.disjoint_singleton, hne]

/-- A member of the table after an insertion is an old member or the
freshly parsed entry. -/
theorem insertType_mem_pair (tbl : List (Nat × TypeNode)) (e : RawTypeEntry)
    (kv : Nat × TypeNode) (h : kv ∈ insertType tbl e) :
    kv ∈ tbl ∨ kv = (e.offset, parseEntry e) := by
  unfold insertType at h
  split at h
  · exact Or.inl h
  · rcases List.mem_append.mp h with h' | h'
    · exact Or.inl h'
    · exact Or.inr (List.mem_singleton.mp h')

/-- Keys after folding all entries: the starting keys plus the offsets
occurring in the entry list. -/
theorem foldl_insertType_mem_key (es : List RawTypeEntry)
    (tbl : List (Nat × TypeNode)) (off : Nat) :
    (off ∈ ((es.foldl insertType tbl).map Prod.fst) ↔
      off ∈ tbl.map Prod.fst ∨ off ∈ es.map RawTypeEntry.offset) := by
  induction es generalizing tbl with
  | nil => simp
  | cons e rest ih =>
    simp only [List.foldl_cons, ih, insertType_mem_key, List.map_cons,
      List.mem_cons]
    tauto

/-- Folding all entries preserves key uniqueness. -/
theorem foldl_insertType_nodup (es : List RawTypeEntry)
    (tbl : List (Nat × TypeNode)) (h : (tbl.map Prod.fst).Nodup) :
    (((es.foldl insertType tbl).map Prod.fst)).Nodup := by
  induction es generalizing tbl with
  | nil => exact h
  | cons e rest ih => exact ih _ (insertType_nodup tbl e h)

/-- With unique keys, offset lookup finds exactly the table's entry for
that key. -/
theorem find?_key_of_nodup (tbl : List (Nat × TypeNode))
    (kv : Nat × TypeNode) (hnd : (tbl.map Prod.fst).Nodup) (hm : kv ∈ tbl) :
    tbl.find? (fun x => decide (x.1 = kv.1)) = some kv := by
  induction tbl with
  | nil => cases hm
  | cons a t ih =>
    simp only [List.map_cons, List.nodup_cons] at hnd
    rcases List.mem_cons.mp hm with h | h
    · subst h
      rw [List.find?_cons_of_pos _ (by simp)]
    · have hne : ¬ a.1 = kv.1 := by
        intro hEq
        exact hnd.1 (hEq ▸ List.mem_map_of_mem Prod.fst h)
      rw [List.find?_cons_of_neg _ (by simpa using hne)]
      exact ih hnd.2 h

/-- C6: `parseObject` is a total, structurally recursive function, so
parsing any object image — a self-referential aggregate included —
terminates; it produces exactly one Type node per raw debug-format offset
(keys are duplicate-free and are exactly the offsets occurring in the
image), looking up a table entry's offset resolves to that unique shared
node (so a recursive edge reaches the node it occurs in), and loading
several objects builds each object's table independently from its own
entries — no deduplication across objects. -/
theorem typeGraph_dedup (img : ObjectImage) :
    ((parseObject img).typesByOffset.map Prod.fst).Nodup ∧
      (∀ off, off ∈ (parseObject img).typesByOffset.map Prod.fst ↔
        off ∈ img.entries.map RawTypeEntry.offset) ∧
      (∀ kv ∈ (parseObject img).typesByOffset,
        (parseObject img).typeAt kv.1 = some kv.2) ∧
      (∀ (imgs : List ObjectImage) (i : Nat),
        (loadObjects imgs)[i]? = imgs[i]?.map parseObject) := by
  have hnd : ((parseObject img).typesByOffset.map Prod.fst).Nodup :=
    foldl_insertType_nodup img.entries [] (by simp)
  refine ⟨hnd, fun off => ?_, fun kv hm => ?_, fun imgs i => ?_⟩
  · simpa using foldl_insertType_mem_key img.entries [] off
  · unfold ObjectInfo.typeAt
    rw [find?_key_of_nodup _ kv hnd hm]
    rfl
  · exact List.getElem?_map parseObject imgs i

/-- C6 witness: a self-referential structure (its pointer edge names its
own offset) parses to a single node whose offset lookup yields that very
node. -/
theorem typeGraph_dedup_witness :
    (parseObject (ObjectImage.mk [⟨7, TypeKind.struct, 16, [7]⟩])).typeAt 7 =
      some ⟨7, TypeKind.struct, 16, [7]⟩ :=
  (typeGraph_dedup (ObjectImage.mk [⟨7, TypeKind.struct, 16, [7]⟩])).2.2.1
    (7, ⟨7, TypeKind.struct, 16, [7]⟩) (by decide)

/-- C5: RemotePtr arithmetic — `addr + k` equals the raw address plus
`k * size(T)` where `size(T)` is the remote type's recorded byte size (the
right-hand side mentions only the remote metadata, so the result is
independent of any local representation's size); successive additions
compose additively, and element indexing follows the same law. -/
theorem remotePtr_arithmetic (p : RemotePtr) (k : Int) :
    (p.add k).raw = p.raw + k * (p.type.byteSize : Int) ∧
      (∀ j : Int, (p.add j).add k = p.add (j + k)) ∧
      p.index k = p.raw + k * (p.type.byteSize : Int) := by
  refine ⟨rfl, fun j => ?_, rfl⟩
  simp only [RemotePtr.add, RemotePtr.mk.injEq, and_true]
  ring

/-- Word reduction always lands below `2 ^ width`. -/
theorem wordOf_lt (w n : Nat) : wordOf w n < 2 ^ w :=
  Nat.mod_lt _ (pow_pos (by norm_num) w)

/-- One evaluator step keeps every stack value below `2 ^ width`. -/
theorem evalOp_bounded (ctx : EvalContext) (space : List Region)
    (stack s2 : List Nat) (op : DwarfOp)
    (hok : evalOp ctx space stack op = .ok s2)
    (hstack : ∀ x ∈ stack, x < 2 ^ ctx.width) :
    ∀ x ∈ s2, x < 2 ^ ctx.width := by
  cases op with
  | lit n =>
    injection hok with hok
    subst hok
    intro x hx
    rcases List.mem_cons.mp hx with h | h
    · exact h ▸ wordOf_lt _ _
    · exact hstack x h
  | reg i =>
    injection hok with hok
    subst hok
    intro x hx
    rcases List.mem_cons.mp hx with h | h
    · exact h ▸ wordOf_lt _ _
    · exact hstack x h
  | fbreg off =>
    injection hok with hok
    subst hok
    intro x hx
    rcases List.mem_cons.mp hx with h | h
    · exact h ▸ wordOf_lt _ _
    · exact hstack x h
  | plusUconst n =>
    cases stack with
    | nil => exact absurd hok (by simp [evalOp])
    | cons a rest =>
      injection hok with hok
      subst hok
      intro x hx
      rcases List.mem_cons.mp hx with h | h
      · exact h ▸ wordOf_lt _ _
      · exact hstack x (List.mem_cons_of_mem a h)
  | plus =>
    match stack, hstack with
    | [], hstack => exact absurd hok (by simp [evalOp])
    | [a], hstack => exact absurd hok (by simp [evalOp])
    | a :: b :: rest, hstack =>
      injection hok with hok
      subst hok
      intro x hx
      rcases List.mem_cons.mp hx with h | h
      · exact h ▸ wordOf_lt _ _
      · exact hstack x (List.mem_cons_of_mem a (List.mem_cons_of_mem b h))
  | minus =>
    match stack, hstack with
    | [], hstack => exact absurd hok (by simp [evalOp])
    | [a], hstack => exact absurd hok (by simp [evalOp])
    | a :: b :: rest, hstack =>
      injection hok with hok
      subst hok
      intro x hx
      rcases List.mem_cons.mp hx with h | h
      · exact h ▸ wordOf_lt _ _
      · exact hstack x (List.mem_cons_of_mem a (List.mem_cons_of_mem b h))
  | mul =>
    match stack, hstack with
    | [], hstack => exact absurd hok (by simp [evalOp])
    | [a], hstack => exact absurd hok (by simp [evalOp])
    | a :: b :: rest, hstack =>
      injection hok with hok
      subst hok
      intro x hx
      rcases List.mem_cons.mp hx with h | h
      · exact h ▸ wordOf_lt _ _
      · exact hstack x (List.mem_cons_of_mem a (List.mem_cons_of_mem b h))
  | deref =>
    cases stack with
    | nil => exact absurd hok (by simp [evalOp])
    | cons a rest =>
      simp only [evalOp] at hok
      cases hr : readBytesRegions space a (ctx.width / 8) with
      | ok bs =>
        rw [hr] at hok
        injection hok with hok
        subst hok
        intro x hx
        rcases List.mem_cons.mp hx with h | h
        · exact h ▸ wordOf_lt _ _
        · exact hstack x (List.mem_cons_of_mem a h)
      | error e => rw [hr] at hok; cases hok
  | unknownOp code => cases hok

/-- A whole program run keeps every stack value below `2 ^ width`. -/
theorem evalProgram_bounded (ctx : EvalContext) (space : List Region)
    (prog : List DwarfOp) (stack s2 : List Nat)
    (hstack : ∀ x ∈ stack, x < 2 ^ ctx.width)
    (hok : evalProgram ctx space stack prog = .ok s2) :
    ∀ x ∈ s2, x < 2 ^ ctx.width := by
  induction prog generalizing stack with
  | nil =>
    injection hok with hok
    exact hok ▸ hstack
  | cons op rest ih =>
    simp only [evalProgram] at hok
    cases h1 : evalOp ctx space stack op with
    | ok stack2 =>
      rw [h1] at hok
      exact ih stack2 (evalOp_bounded ctx space stack stack2 op h1 hstack) hok
    | error e => rw [h1] at hok; cases hok

/-- C7: every arithmetic step of the evaluator treats intermediate values
as unsigned machine words of the target's pointer width — every value a
successful run leaves on the stack, and every successfully evaluated
result, is reduced modulo `2 ^ width` (hence below it), and the binary
operations compute exactly the wrapped modular result. -/
theorem dwarf_eval_wraparound (ctx : EvalContext) (space : List Region) :
    (∀ (prog : List DwarfOp) (stack s2 : List Nat),
      (∀ x ∈ stack, x < 2 ^ ctx.width) →
      evalProgram ctx space stack prog = .ok s2 →
      ∀ x ∈ s2, x < 2 ^ ctx.width) ∧
      (∀ (prog : List DwarfOp) (v : Nat),
        evaluate ctx space prog = .ok v → v < 2 ^ ctx.width) ∧
      (∀ (a b : Nat) (rest : List Nat),
        evalOp ctx space (a :: b :: rest) .plus =
            .ok ((b + a) % 2 ^ ctx.width :: rest) ∧
          evalOp ctx space (a :: b :: rest) .mul =
            .ok ((b * a) % 2 ^ ctx.width :: rest)) := by
  refine ⟨fun prog stack s2 h1 h2 =>
    evalProgram_bounded ctx space prog stack s2 h1 h2,
    fun prog v hv => ?_, fun a b rest => ⟨rfl, rfl⟩⟩
  unfold evaluate at hv
  split at hv
  · rename_i a rest heq
    injection hv with hv
    exact hv ▸ evalProgram_bounded ctx space prog [] (a :: rest)
      (by simp) heq a (List.mem_cons_self a rest)
  · cases hv
  · cases hv

/-- C7 witness: on a 4-bit target, `9 + 9` evaluates to the wrapped value
`2`, which the theorem bounds by `2 ^ 4`. -/
theorem dwarf_eval_wraparound_witness :
    evaluate ⟨4, 0, fun _ => 0⟩ [] [.lit 9, .lit 9, .plus] = .ok 2 ∧
      2 < 2 ^ 4 :=
  ⟨rfl, (dwarf_eval_wraparound ⟨4, 0, fun _ => 0⟩ []).2.1
    [.lit 9, .lit 9, .plus] 2 rfl⟩

/-- Running a concatenated program runs the two pieces in sequence. -/
theorem evalProgram_append (ctx : EvalContext) (space : List Region)
    (pre post : List DwarfOp) (stack : List Nat) :
    evalProgram ctx space stack (pre ++ post) =
      match evalProgram ctx space stack pre with
      | .ok s2 => evalProgram ctx space s2 post
      | .error e => .error e := by
  induction pre generalizing stack with
  | nil => rfl
  | cons op rest ih =>
    simp only [List.cons_append, evalProgram]
    cases evalOp ctx space stack op with
    | ok s2 => exact ih s2
    | error e => rfl

/-- C8: a location expression containing an operation the evaluator has
not modeled fails with `UnsupportedOperation` as soon as execution reaches
it, and the failure is local: resolving a list of variables evaluates each
variable's expression independently, so the result at any position is
exactly that variable's own evaluation, unaffected by any other
variable's failure. -/
theorem unsupported_operation_local (ctx : EvalContext) (space : List Region)
    (pre rest : List DwarfOp) (c : Nat) (s2 : List Nat)
    (h : evalProgram ctx space [] pre = .ok s2) :
    evalProgram ctx space [] (pre ++ DwarfOp.unknownOp c :: rest) =
        .error .UnsupportedOperation ∧
      evaluate ctx space (pre ++ DwarfOp.unknownOp c :: rest) =
        .error .UnsupportedOperation ∧
      (∀ (vars : List (List DwarfOp)) (j : Nat) (e : List DwarfOp),
        vars[j]? = some e →
        (resolveVariables ctx space vars)[j]? =
          some (evaluate ctx space e)) := by
  have hrun : evalProgram ctx space [] (pre ++ DwarfOp.unknownOp c :: rest) =
      .error .UnsupportedOperation := by
    rw [evalProgram_append, h]
    rfl
  refine ⟨hrun, ?_, fun vars j e hj => ?_⟩
  · unfold evaluate
    rw [hrun]
  · unfold resolveVariables
    rw [List.getElem?_map, hj]
    rfl

/-- C8 witness: a program reaching an unmodeled opcode fails with
`UnsupportedOperation`. -/
theorem unsupported_operation_local_witness :
    evaluate ⟨4, 0, fun _ => 0⟩ [] [.lit 1, .unknownOp 99] =
      .error .UnsupportedOperation :=
  (unsupported_operation_local ⟨4, 0, fun _ => 0⟩ [] [.lit 1] [] 99 [1]
    rfl).2.1

/-- C9: a blocking `get` on a one-shot result that is not yet set is a
detected deadlock: it reports `DeadlockDetected` (the model of the
source's "detects this and aborts") and never yields a value, so the
single-threaded control loop is not stalled. -/
theorem future_get_unset (f : FutureState) (h : f.value = none) :
    f.get = .error .DeadlockDetected ∧ ∀ v, ¬ f.get = .ok v := by
  unfold FutureState.get
  rw [h]
  exact ⟨rfl, fun v hv => by cases hv⟩

/-- C9 witness: a fresh future with one queued continuation is unset, so
`get` aborts with the detected-deadlock error. -/
theorem future_get_unset_witness :
    (FutureState.initial.thenCont 3).get =
      .error KernelError.DeadlockDetected :=
  (future_get_unset (FutureState.initial.thenCont 3) rfl).1

/-- Any sequence of successful refcount operations preserves "alive
implies positive count". -/
theorem runRefOps_alive (ops : List RefOp) (p : ProcessObj)
    (hp : p.deleted = false → 0 < p.refcount) (q : ProcessObj)
    (hq : runRefOps p ops = .ok q) :
    q.deleted = false → 0 < q.refcount := by
  induction ops generalizing p with
  | nil =>
    injection hq with hq
    exact hq ▸ hp
  | cons op rest ih =>
    cases op with
    | addRef =>
      simp only [runRefOps] at hq
      cases h1 : intrusive_ptr_add_ref p with
      | ok q0 =>
        rw [h1] at hq
        refine ih q0 (fun _ => ?_) hq
        by_cases hz : p.refcount = 0
        · simp [intrusive_ptr_add_ref, hz] at h1
        · simp only [intrusive_ptr_add_ref, if_neg hz] at h1
          injection h1 with h1
          rw [← h1]
          exact Nat.succ_pos _
      | error e => rw [h1] at hq; cases hq
    | release =>
      simp only [runRefOps] at hq
      refine ih (intrusive_ptr_release p) (fun hdel => ?_) hq
      unfold intrusive_ptr_release at hdel ⊢
      simp only [Bool.or_eq_false_iff, decide_eq_false_iff_not] at hdel
      exact Nat.pos_of_ne_zero hdel.2

/-- C10: from the `Process` code excerpt in `uhood.doc` — the intrusive
reference count starts at 1 on construction; `intrusive_ptr_add_ref` on a
count of zero is an assertion failure and otherwise increments to a
positive count without touching liveness; `intrusive_ptr_release`
decrements and deletes the object exactly when the count reaches zero;
every successful operation sequence keeps the count positive while the
object is alive; `SIMIX_process_ref` returns its pointer unchanged; and
both `SIMIX_process_ref` and `SIMIX_process_unref` are no-ops on the null
pointer. -/
theorem process_refcount :
    (ProcessObj.new.refcount = 1 ∧ ProcessObj.new.deleted = false) ∧
      (∀ p : ProcessObj, p.refcount = 0 →
        intrusive_ptr_add_ref p = .error .assertFailed) ∧
      (∀ p q : ProcessObj, intrusive_ptr_add_ref p = .ok q →
        q.refcount = p.refcount + 1 ∧ 0 < q.refcount ∧
          q.deleted = p.deleted) ∧
      (∀ p : ProcessObj,
        (intrusive_ptr_release p).refcount = p.refcount - 1 ∧
          ((intrusive_ptr_release p).deleted = true ↔
            p.deleted = true ∨ p.refcount - 1 = 0)) ∧
      (∀ (ops : List RefOp) (q : ProcessObj),
        runRefOps ProcessObj.new ops = .ok q → q.deleted = false →
          0 < q.refcount) ∧
      (∀ store : ProcStore,
        SIMIX_process_ref none store = .ok (store, none) ∧
          SIMIX_process_unref none store = store) ∧
      (∀ (a : Nat) (store s2 : ProcStore) (q : Option Nat),
        SIMIX_process_ref (some a) store = .ok (s2, q) → q = some a) := by
  refine ⟨⟨rfl, rfl⟩, fun p h => ?_, fun p q h => ?_, fun p => ?_,
    fun ops q hq => runRefOps_alive ops ProcessObj.new (fun _ => Nat.one_pos)
      q hq, fun store => ⟨rfl, rfl⟩, fun a store s2 q h => ?_⟩
  · unfold intrusive_ptr_add_ref
    simp [h]
  · by_cases hz : p.refcount = 0
    · simp [intrusive_ptr_add_ref, hz] at h
    · simp only [intrusive_ptr_add_ref, if_neg hz] at h
      injection h with h
      rw [← h]
      exact ⟨rfl, Nat.succ_pos _, rfl⟩
  · unfold intrusive_ptr_release
    refine ⟨rfl, ?_⟩
    simp [Bool.or_eq_true, decide_eq_true_eq]
  · simp only [SIMIX_process_ref] at h
    cases h1 : intrusive_ptr_add_ref (store a) with
    | ok obj =>
      rw [h1] at h
      injection h with h
      exact (congrArg Prod.snd h).symm
    | error e => rw [h1] at h; cases h

/-- C10 witness: `add_ref` on a zero count asserts; a fresh process
incremented has a positive count; and an add-ref/release pair on a fresh
process leaves it alive with a positive count. -/
theorem process_refcount_witness :
    intrusive_ptr_add_ref ⟨0, true⟩ =
        Except.error AssertViolation.assertFailed ∧
      0 < (⟨2, false⟩ : ProcessObj).refcount ∧
      0 < (⟨1, false⟩ : ProcessObj).refcount := by
  refine ⟨process_refcount.2.1 ⟨0, true⟩ rfl, ?_, ?_⟩
  · exact (process_refcount.2.2.1 ⟨1, false⟩ ⟨2, false⟩ rfl).2.1
  · exact process_refcount.2.2.2.2.1 [RefOp.addRef, RefOp.release]
      ⟨1, false⟩ rfl rfl

end SimGridMC
